import Mathlib

/-!
Verification development for the channel-history pagination iterator
(ChannelHistory) and the bulk-purge algorithm (MessageableMixin.purge) of
src/dis_snek/models/discord/channel.py, together with the message-fetch
and message-delete helpers they use (get_messages, delete_messages,
delete_message).

The HTTP client collaborator is abstracted as a pure page oracle
server : limit -> around -> before -> after -> List Message (the cache
normalisation place_message_data is folded into the oracle, which already
returns normalised Message values).  Snowflake IDs and cursor arguments
are Nat; following Python truthiness in the source (if self.after: ...),
a cursor value 0 plays the role of an absent (None / MISSING) argument.
-/

/-- In-memory message record: only the fields read by the embedded code
(message.id, message.author.id, and whether MessageFlags.LOADING is in
message.flags). -/
structure Message where
  id : Nat
  authorId : Nat
  loading : Bool
deriving DecidableEq, Repr

/-- A delete operation issued against the HTTP client: either
http.delete_message on a single ID or http.bulk_delete_messages on a
list of IDs. -/
inductive DeleteCall where
  | single : Nat → DeleteCall
  | bulk : List Nat → DeleteCall
deriving DecidableEq, Repr

/-- The IDs named by a delete call. -/
def callIds : DeleteCall → List Nat
  | DeleteCall.single x => [x]
  | DeleteCall.bulk l => l

/-- Number of IDs a delete call names. -/
def callSize (c : DeleteCall) : Nat := (callIds c).length

/-- Whether a delete call is a bulk call. -/
def isBulk : DeleteCall → Bool
  | DeleteCall.bulk _ => true
  | DeleteCall.single _ => false

/-- Stable insertion of a message into a list, ascending by id: mirrors
what Python list.sort with key = id does to each element. -/
def insertAsc (m : Message) : List Message → List Message
  | [] => [m]
  | x :: xs => if m.id ≤ x.id then m :: x :: xs else x :: insertAsc m xs

/-- messages.sort(key = lambda x: x.id): stable ascending sort by id
(channel.py line 105). -/
def sortAsc : List Message → List Message
  | [] => []
  | m :: xs => insertAsc m (sortAsc xs)

/-- Stable insertion of a message into a list, descending by id. -/
def insertDesc (m : Message) : List Message → List Message
  | [] => [m]
  | x :: xs => if x.id ≤ m.id then m :: x :: xs else x :: insertDesc m xs

/-- messages.sort(key = lambda x: x.id, reverse = True): stable
descending sort by id (channel.py line 118). -/
def sortDesc : List Message → List Message
  | [] => []
  | m :: xs => insertDesc m (sortDesc xs)

/-- Discord epoch offset in milliseconds; the value 1420070400000 is
given in the source comment at channel.py line 320. -/
def DISCORD_EPOCH : Nat := 1420070400000

/-- The age cutoff computed at the top of purge (channel.py line 321):
int((time.time() - 1209600) * 1000.0 - DISCORD_EPOCH) << 22, with the
current wall-clock time passed in as whole seconds.  Nat subtraction
truncates at 0, which agrees with the Python comparison message.id <
cutoff for the (unrealistic) times at which the Python value would be
negative, since IDs are nonnegative. -/
def fourteenDaysAgo (now : Nat) : Nat :=
  ((now - 1209600) * 1000 - DISCORD_EPOCH) <<< 22

/-- The mutable state of one ChannelHistory iterator: the three cursor
arguments stored by ChannelHistory.__init__ (channel.py lines 80-85,
0 encoding None), the AsyncIterator bookkeeping (overall limit with 0
meaning unbounded, the last-seen anchor, the count of messages retrieved
so far), and a ghost counter of HTTP page fetches performed. -/
structure HistState where
  limit : Nat
  before : Nat
  after : Nat
  around : Nat
  last : Option Nat
  retrieved : Nat
  fetches : Nat
deriving DecidableEq, Repr

/-- ChannelHistory.__init__ (channel.py lines 80-85): store the cursor
arguments and initialise the AsyncIterator bookkeeping. -/
def mkHistory (limit before after around : Nat) : HistState :=
  { limit := limit, before := before, after := after, around := around,
    last := none, retrieved := 0, fetches := 0 }

/-- Modelled from the spec: the page size used for each fetch by the
generic lazy-sequence driver (AsyncIterator.get_limit, whose source is
not in this repository snapshot): min(100, remaining_limit) when the
overall limit is bounded, else 100; the value 0 means the configured
limit has been reached and no further page is requested. -/
def getLimit (st : HistState) : Nat :=
  if st.limit = 0 then 100 else min (st.limit - st.retrieved) 100

/-- ChannelHistory.fetch (channel.py lines 87-119).  Returns the page
handed to the consumer together with the state after the fetch body ran:
a truthy after seeds the anchor from after and sorts the page ascending
by id; otherwise a truthy around requests one page centred on around and
then forces the overall limit to 1; otherwise a truthy before seeds the
anchor from before, and the page is requested before the anchor and
sorted descending by id. -/
def fetch (server : Nat → Nat → Nat → Nat → List Message) (st : HistState) :
    List Message × HistState :=
  if st.after ≠ 0 then
    let lastId : Nat :=
      match st.last with
      | some l => l
      | none => st.after
    (sortAsc (server (getLimit st) 0 0 lastId), { st with last := some lastId })
  else if st.around ≠ 0 then
    (server (getLimit st) st.around 0 0, { st with limit := 1 })
  else
    let st1 :=
      if st.before ≠ 0 ∧ st.last = none then { st with last := some st.before } else st
    let beforeArg : Nat :=
      match st1.last with
      | some l => l
      | none => 0
    (sortDesc (server (getLimit st) 0 beforeArg 0), st1)

/-- Modelled from the spec: one demand step of the lazy-sequence driver
(AsyncIterator, whose source is not in this repository snapshot).  When
the configured limit is reached no fetch is performed; otherwise one
page is fetched, an empty page ends the sequence (EndOfSequence), and a
nonempty page is handed to the consumer after recording its final
element as the new anchor and charging its length against the limit. -/
def step (server : Nat → Nat → Nat → Nat → List Message) (st : HistState) :
    Option (List Message) × HistState :=
  if getLimit st = 0 then (none, st)
  else
    let p := fetch server st
    let st1 := { p.2 with fetches := p.2.fetches + 1 }
    match p.1.getLast? with
    | none => (none, st1)
    | some m =>
        (some p.1,
         { st1 with last := some m.id, retrieved := st1.retrieved + p.1.length })

/-- Modelled from the spec: driving the lazy-sequence driver to
exhaustion, collecting every yielded message in order.  The fuel
argument bounds the number of demand steps (the Python loop has no such
bound; every claim below is proved for all fuel values). -/
def run (server : Nat → Nat → Nat → Nat → List Message) :
    Nat → HistState → List Message × HistState
  | 0, st => ([], st)
  | Nat.succ fuel, st =>
    match step server st with
    | (none, st1) => ([], st1)
    | (some page, st1) =>
        let r := run server fuel st1
        (page ++ r.1, r.2)

/-- MessageableMixin.get_messages (channel.py lines 202-233): reject
limits above 100 with a ValueError before consulting the HTTP client,
otherwise pass the cursor arguments through to the HTTP client. -/
def get_messages (server : Nat → Nat → Nat → Nat → List Message)
    (limit around before after : Nat) : Except String (List Message) :=
  if 100 < limit then
    Except.error "You cannot fetch more than 100 messages at once."
  else
    Except.ok (server limit around before after)

/-- MessageableMixin.delete_messages (channel.py lines 246-264): a
one-element list dispatches to the single-message delete endpoint, any
other list goes to the bulk endpoint. -/
def delete_messages (ids : List Nat) : DeleteCall :=
  if ids.length = 1 then DeleteCall.single (ids.headD 0) else DeleteCall.bulk ids

/-- The message-selection loop of purge (channel.py lines 322-338),
folded over the messages yielded by the history iterator with the
accumulator to_delete carried explicitly: break once the accumulator
holds deletion_limit ids (unless deletion_limit is 0), skip messages
failing the predicate, skip the bot's own loading messages when
avoid_loading_msg is set, skip messages older than the cutoff, and
append every surviving id. -/
def selectLoop (botId deletionLimit : Nat) (pred : Message → Bool)
    (avoidLoading : Bool) (cutoff : Nat) :
    List Message → List Nat → List Nat
  | [], acc => acc
  | m :: rest, acc =>
    if deletionLimit ≠ 0 ∧ acc.length = deletionLimit then acc
    else if pred m = false then
      selectLoop botId deletionLimit pred avoidLoading cutoff rest acc
    else if avoidLoading = true ∧ m.authorId = botId ∧ m.loading = true then
      selectLoop botId deletionLimit pred avoidLoading cutoff rest acc
    else if m.id < cutoff then
      selectLoop botId deletionLimit pred avoidLoading cutoff rest acc
    else
      selectLoop botId deletionLimit pred avoidLoading cutoff rest (acc ++ [m.id])

/-- One pass of the drain loop of purge (channel.py line 342):
[to_delete.pop() for i in range(min(100, len(to_delete)))] collects the
last min(100, len) elements in reverse order and leaves the front of the
list. -/
def popIteration (l : List Nat) : List Nat × List Nat :=
  let k := min 100 l.length
  ((l.drop (l.length - k)).reverse, l.take (l.length - k))

/-- The drain loop of purge (channel.py lines 341-343), with structural
fuel: each pass removes at least one element, so fuel equal to the
length of the accumulator suffices (batchLoop below supplies it). -/
def batchGo : Nat → List Nat → List (List Nat)
  | 0, _ => []
  | Nat.succ fuel, l =>
    if l.length = 0 then []
    else (popIteration l).1 :: batchGo fuel (popIteration l).2

/-- The batches handed to delete_messages by the drain loop of purge,
in the order the calls are issued. -/
def batchLoop (l : List Nat) : List (List Nat) := batchGo l.length l

/-- The accumulator to_delete built by a purge invocation
(channel.py lines 318-338): the selection loop run over the messages
yielded by self.history(limit=search_limit, before, after, around). -/
def purgeAccum (server : Nat → Nat → Nat → Nat → List Message) (fuel : Nat)
    (deletionLimit searchLimit : Nat) (pred : Message → Bool)
    (avoidLoading : Bool) (before after around : Nat) (now botId : Nat) :
    List Nat :=
  selectLoop botId deletionLimit pred avoidLoading (fourteenDaysAgo now)
    (run server fuel (mkHistory searchLimit before after around)).1 []

/-- MessageableMixin.purge (channel.py lines 278-344): returns the count
len(to_delete) taken before any deletion, together with the sequence of
delete calls the drain loop issues. -/
def purge (server : Nat → Nat → Nat → Nat → List Message) (fuel : Nat)
    (deletionLimit searchLimit : Nat) (pred : Message → Bool)
    (avoidLoading : Bool) (before after around : Nat) (now botId : Nat) :
    Nat × List DeleteCall :=
  let td := purgeAccum server fuel deletionLimit searchLimit pred avoidLoading
    before after around now botId
  (td.length, (batchLoop td).map delete_messages)

/-- Execution of the delete calls of a purge against an HTTP client that
may fail: calls are issued strictly in order; the first failing call is
still issued, its error is returned as is, and no later call is issued
(purge performs no retry and no compensation). -/
def execPurge (fails : DeleteCall → Bool) :
    List DeleteCall → List DeleteCall × Option DeleteCall
  | [] => ([], none)
  | c :: rest =>
    if fails c then ([c], some c)
    else
      let r := execPurge fails rest
      (c :: r.1, r.2)

/-- A purge invocation together with the execution of its delete calls:
the returned count is paired with the issued calls and the propagated
error, if any. -/
def purgeRun (fails : DeleteCall → Bool)
    (server : Nat → Nat → Nat → Nat → List Message) (fuel : Nat)
    (deletionLimit searchLimit : Nat) (pred : Message → Bool)
    (avoidLoading : Bool) (before after around : Nat) (now botId : Nat) :
    Nat × (List DeleteCall × Option DeleteCall) :=
  let p := purge server fuel deletionLimit searchLimit pred avoidLoading
    before after around now botId
  (p.1, execPurge fails p.2)

/-- Eligibility of one message for the purge accumulator, as spelled
out by the selection loop conditions (used to characterise the
deletion_limit = 0 behaviour). -/
def eligibleB (botId : Nat) (pred : Message → Bool) (avoidLoading : Bool)
    (cutoff : Nat) (m : Message) : Bool :=
  if pred m = false then false
  else if avoidLoading = true ∧ m.authorId = botId ∧ m.loading = true then false
  else if m.id < cutoff then false
  else true

/-- The normal form of a history state under the fixed mode precedence
of ChannelHistory.fetch: a truthy after shadows around and before, a
truthy around shadows before. -/
def scrub (st : HistState) : HistState :=
  if st.after ≠ 0 then { st with around := 0, before := 0 }
  else if st.around ≠ 0 then { st with before := 0 }
  else st

/-- A snowflake base comfortably above the 14-day cutoff for the sample
wall-clock time nowW below (the cutoff is about 1.17e18). -/
def bigId : Nat := 2000000000000000000

/-- A sample recent message with the given offset above bigId. -/
def mkMsg (i : Nat) : Message := { id := bigId + i, authorId := 0, loading := false }

/-- A sample wall-clock time in whole seconds (November 2023). -/
def nowW : Nat := 1700000000

/-- A page oracle that always answers with an empty channel. -/
def srvEmpty : Nat → Nat → Nat → Nat → List Message := fun _ _ _ _ => []

/-- A page oracle that answers every request with the two-message page
[id 1, id 2], in ascending order. -/
def srvAsc : Nat → Nat → Nat → Nat → List Message :=
  fun _ _ _ _ =>
    [{ id := 1, authorId := 0, loading := false },
     { id := 2, authorId := 0, loading := false }]

/-- A page oracle that always answers with one recent message. -/
def srvOne : Nat → Nat → Nat → Nat → List Message := fun _ _ _ _ => [mkMsg 1]

/-- A page oracle that always answers with two recent messages. -/
def srvTwo : Nat → Nat → Nat → Nat → List Message :=
  fun _ _ _ _ => [mkMsg 2, mkMsg 1]

/-- A page oracle describing a 101-message channel: the first page of
100 recent messages, then one further recent message. -/
def srv101 : Nat → Nat → Nat → Nat → List Message :=
  fun limit _ _ _ =>
    if limit = 100 then (List.range 100).map (fun i => mkMsg (i + 1))
    else if limit = 1 then [mkMsg 0]
    else []

/-- A page oracle describing a 150-message channel: a first page of 100
recent messages, then a second page of 50. -/
def srv150 : Nat → Nat → Nat → Nat → List Message :=
  fun limit _ _ _ =>
    if limit = 100 then (List.range 100).map (fun i => mkMsg (i + 51))
    else if limit = 50 then (List.range 50).map (fun i => mkMsg (i + 1))
    else []

/-- A loading placeholder message authored by the sample bot account. -/
def msgLoad : Message := { id := bigId + 9, authorId := 999, loading := true }

/-- A page oracle yielding one bot-authored loading message and one
ordinary recent message. -/
def srvMix : Nat → Nat → Nat → Nat → List Message :=
  fun _ _ _ _ => [msgLoad, mkMsg 1]

/-- Membership in an ascending insertion. -/
theorem insertAsc_mem (m : Message) (l : List Message) (x : Message) :
    x ∈ insertAsc m l ↔ x = m ∨ x ∈ l := by
  induction l with
  | nil => simp [insertAsc]
  | cons a as ih =>
    by_cases h : m.id ≤ a.id
    · simp [insertAsc, h]
    · simp only [insertAsc, if_neg h, List.mem_cons, ih]
      tauto

/-- Ascending insertion preserves ascending order. -/
theorem insertAsc_sorted (m : Message) {l : List Message}
    (hl : List.Pairwise (fun x y => x.id ≤ y.id) l) :
    List.Pairwise (fun x y => x.id ≤ y.id) (insertAsc m l) := by
  induction l with
  | nil => simp [insertAsc]
  | cons a as ih =>
    rcases List.pairwise_cons.mp hl with ⟨ha, has⟩
    by_cases h : m.id ≤ a.id
    · rw [insertAsc, if_pos h]
      refine List.Pairwise.cons ?_ hl
      intro y hy
      rcases List.mem_cons.mp hy with rfl | hy2
      · exact h
      · exact Nat.le_trans h (ha y hy2)
    · rw [insertAsc, if_neg h]
      refine List.Pairwise.cons ?_ (ih has)
      intro y hy
      rcases (insertAsc_mem m as y).mp hy with rfl | hy2
      · omega
      · exact ha y hy2

/-- The ascending sort used for after-mode pages is ascending by id. -/
theorem sortAsc_sorted (l : List Message) :
    List.Pairwise (fun x y => x.id ≤ y.id) (sortAsc l) := by
  induction l with
  | nil => simp [sortAsc]
  | cons a as ih => exact insertAsc_sorted a ih

/-- Membership in a descending insertion. -/
theorem insertDesc_mem (m : Message) (l : List Message) (x : Message) :
    x ∈ insertDesc m l ↔ x = m ∨ x ∈ l := by
  induction l with
  | nil => simp [insertDesc]
  | cons a as ih =>
    by_cases h : a.id ≤ m.id
    · simp [insertDesc, h]
    · simp only [insertDesc, if_neg h, List.mem_cons, ih]
      tauto

/-- Descending insertion preserves descending order. -/
theorem insertDesc_sorted (m : Message) {l : List Message}
    (hl : List.Pairwise (fun x y => y.id ≤ x.id) l) :
    List.Pairwise (fun x y => y.id ≤ x.id) (insertDesc m l) := by
  induction l with
  | nil => simp [insertDesc]
  | cons a as ih =>
    rcases List.pairwise_cons.mp hl with ⟨ha, has⟩
    by_cases h : a.id ≤ m.id
    · rw [insertDesc, if_pos h]
      refine List.Pairwise.cons ?_ hl
      intro y hy
      rcases List.mem_cons.mp hy with rfl | hy2
      · exact h
      · exact Nat.le_trans (ha y hy2) h
    · rw [insertDesc, if_neg h]
      refine List.Pairwise.cons ?_ (ih has)
      intro y hy
      rcases (insertDesc_mem m as y).mp hy with rfl | hy2
      · omega
      · exact ha y hy2

/-- The descending sort used for before-mode pages is descending by id. -/
theorem sortDesc_sorted (l : List Message) :
    List.Pairwise (fun x y => y.id ≤ x.id) (sortDesc l) := by
  induction l with
  | nil => simp [sortDesc]
  | cons a as ih => exact insertDesc_sorted a ih

/-- Once the accumulator holds deletion_limit ids (deletion_limit
nonzero), the selection loop stops scanning and returns it unchanged. -/
theorem selectLoop_break (botId deletionLimit : Nat) (pred : Message → Bool)
    (avoidLoading : Bool) (cutoff : Nat) (msgs : List Message) (acc : List Nat)
    (h : deletionLimit ≠ 0) (h2 : acc.length = deletionLimit) :
    selectLoop botId deletionLimit pred avoidLoading cutoff msgs acc = acc := by
  cases msgs with
  | nil => rfl
  | cons m rest => rw [selectLoop, if_pos ⟨h, h2⟩]

/-- With a nonzero deletion_limit the accumulator never grows beyond
deletion_limit entries. -/
theorem selectLoop_length_le (botId deletionLimit : Nat) (pred : Message → Bool)
    (avoidLoading : Bool) (cutoff : Nat) (msgs : List Message) (acc : List Nat)
    (h : deletionLimit ≠ 0) (hacc : acc.length ≤ deletionLimit) :
    (selectLoop botId deletionLimit pred avoidLoading cutoff msgs acc).length ≤
      deletionLimit := by
  induction msgs generalizing acc with
  | nil => simpa [selectLoop] using hacc
  | cons m rest ih =>
    by_cases hb : acc.length = deletionLimit
    · rw [selectLoop, if_pos ⟨h, hb⟩]
      omega
    · rw [selectLoop, if_neg (by tauto)]
      split
      · exact ih acc hacc
      · split
        · exact ih acc hacc
        · split
          · exact ih acc hacc
          · refine ih (acc ++ [m.id]) ?_
            simp
            omega

/-- Every id in the output of the selection loop is either an id already
in the accumulator or the id of a scanned message that passed the
predicate, was not a skipped loading message, and was not older than the
cutoff. -/
theorem selectLoop_mem (botId deletionLimit : Nat) (pred : Message → Bool)
    (avoidLoading : Bool) (cutoff : Nat) (msgs : List Message) (acc : List Nat)
    (x : Nat)
    (hx : x ∈ selectLoop botId deletionLimit pred avoidLoading cutoff msgs acc) :
    x ∈ acc ∨ ∃ m, m ∈ msgs ∧ m.id = x ∧ pred m = true ∧
      ¬(avoidLoading = true ∧ m.authorId = botId ∧ m.loading = true) ∧
      ¬(m.id < cutoff) := by
  induction msgs generalizing acc with
  | nil => left; simpa [selectLoop] using hx
  | cons m rest ih =>
    rw [selectLoop] at hx
    split at hx
    · left; exact hx
    · split at hx
      · rcases ih acc hx with h | ⟨m1, hm1, rest1⟩
        · left; exact h
        · right; exact ⟨m1, List.mem_cons_of_mem m hm1, rest1⟩
      next hpred =>
        split at hx
        · rcases ih acc hx with h | ⟨m1, hm1, rest1⟩
          · left; exact h
          · right; exact ⟨m1, List.mem_cons_of_mem m hm1, rest1⟩
        next hload =>
          split at hx
          · rcases ih acc hx with h | ⟨m1, hm1, rest1⟩
            · left; exact h
            · right; exact ⟨m1, List.mem_cons_of_mem m hm1, rest1⟩
          next hage =>
            rcases ih (acc ++ [m.id]) hx with h | ⟨m1, hm1, rest1⟩
            · rcases List.mem_append.mp h with h2 | h2
              · left; exact h2
              · right
                refine ⟨m, List.mem_cons_self m rest, ?_, ?_, hload, hage⟩
                · exact (List.mem_singleton.mp h2).symm
                · simpa using hpred
            · right; exact ⟨m1, List.mem_cons_of_mem m hm1, rest1⟩

/-- With deletion_limit zero the selection loop scans the whole message
sequence and accumulates exactly the eligible ids, in order. -/
theorem selectLoop_zero (botId : Nat) (pred : Message → Bool)
    (avoidLoading : Bool) (cutoff : Nat) (msgs : List Message)
    (acc : List Nat) :
    selectLoop botId 0 pred avoidLoading cutoff msgs acc =
      acc ++ (msgs.filter (eligibleB botId pred avoidLoading cutoff)).map
        Message.id := by
  induction msgs generalizing acc with
  | nil => simp [selectLoop]
  | cons m rest ih =>
    rw [selectLoop, if_neg (by simp)]
    by_cases hpred : pred m = false
    · rw [if_pos hpred, ih, List.filter_cons, if_neg (by simp [eligibleB, hpred])]
    · rw [if_neg hpred]
      by_cases hload : avoidLoading = true ∧ m.authorId = botId ∧ m.loading = true
      · rw [if_pos hload, ih, List.filter_cons,
          if_neg (by simp [eligibleB, hpred, hload])]
      · rw [if_neg hload]
        by_cases hage : m.id < cutoff
        · rw [if_pos hage, ih, List.filter_cons,
            if_neg (by simp [eligibleB, hpred, hload, hage])]
        · rw [if_neg hage, ih, List.filter_cons,
            if_pos (by simp [eligibleB, hpred, hload, hage])]
          simp

/-- With avoid_loading_msg set, the selection loop behaves exactly as if
the bot-authored loading messages had been removed from the scanned
sequence: they are never accumulated and never count against the
deletion limit. -/
theorem selectLoop_skips_loading (botId deletionLimit : Nat)
    (pred : Message → Bool) (cutoff : Nat) (msgs : List Message)
    (acc : List Nat) :
    selectLoop botId deletionLimit pred true cutoff msgs acc =
      selectLoop botId deletionLimit pred true cutoff
        (msgs.filter (fun m => decide ¬(m.authorId = botId ∧ m.loading = true)))
        acc := by
  induction msgs generalizing acc with
  | nil => simp
  | cons m rest ih =>
    by_cases hb : deletionLimit ≠ 0 ∧ acc.length = deletionLimit
    · rw [selectLoop_break _ _ _ _ _ _ _ hb.1 hb.2,
        selectLoop_break _ _ _ _ _ _ _ hb.1 hb.2]
    · by_cases hm : m.authorId = botId ∧ m.loading = true
      · rw [List.filter_cons, if_neg (by simp [hm])]
        rw [selectLoop, if_neg hb]
        by_cases hpred : pred m = false
        · rw [if_pos hpred]; exact ih acc
        · rw [if_neg hpred, if_pos ⟨rfl, hm⟩]; exact ih acc
      · rw [List.filter_cons, if_pos (by simp [hm])]
        rw [selectLoop, selectLoop]
        by_cases hpred : pred m = false
        · simp only [if_neg hb, if_pos hpred]; exact ih acc
        · by_cases hage : m.id < cutoff
          · simp only [if_neg hb, if_neg hpred, if_pos hage, ite_self]
            exact ih acc
          · simp only [if_neg hb, if_neg hpred, if_neg hage, eq_self_iff_true,
              true_and, if_neg hm]
            exact ih (acc ++ [m.id])

/-- Every id that appears in some batch of the drain loop came from the
accumulator. -/
theorem batchGo_mem (fuel : Nat) (l : List Nat) (b : List Nat)
    (hb : b ∈ batchGo fuel l) (x : Nat) (hx : x ∈ b) : x ∈ l := by
  induction fuel generalizing l b with
  | zero => simp [batchGo] at hb
  | succ fuel ih =>
    rw [batchGo] at hb
    split at hb
    · simp at hb
    · rcases List.mem_cons.mp hb with rfl | hb2
      · rcases List.mem_reverse.mp hx with hx2
        exact List.mem_of_mem_drop hx2
      · exact List.mem_of_mem_take (ih _ _ hb2 hx)

/-- Every batch of the drain loop holds between 1 and 100 ids. -/
theorem batchGo_bounds (fuel : Nat) (l : List Nat) (b : List Nat)
    (hb : b ∈ batchGo fuel l) : 1 ≤ b.length ∧ b.length ≤ 100 := by
  induction fuel generalizing l b with
  | zero => simp [batchGo] at hb
  | succ fuel ih =>
    rw [batchGo] at hb
    split at hb
    · simp at hb
    next hne =>
      rcases List.mem_cons.mp hb with rfl | hb2
      · simp [popIteration]
        omega
      · exact ih _ _ hb2

/-- The drain loop, given fuel at least the accumulator length, produces
exactly ceil(length / 100) batches. -/
theorem batchGo_count (fuel : Nat) (l : List Nat) (hf : l.length ≤ fuel) :
    (batchGo fuel l).length = (l.length + 99) / 100 := by
  induction fuel generalizing l with
  | zero =>
    have : l.length = 0 := by omega
    simp [batchGo, this]
  | succ fuel ih =>
    rw [batchGo]
    split
    next hz => simp [hz]
    next hz =>
      have hrest : (popIteration l).2.length = l.length - min 100 l.length := by
        simp [popIteration]
      rw [List.length_cons, ih _ (by omega), hrest]
      omega

/-- The batches of the drain loop partition the accumulator: their
lengths sum to the accumulator length. -/
theorem batchGo_sum (fuel : Nat) (l : List Nat) (hf : l.length ≤ fuel) :
    ((batchGo fuel l).map List.length).sum = l.length := by
  induction fuel generalizing l with
  | zero =>
    have : l.length = 0 := by omega
    simp [batchGo, this]
  | succ fuel ih =>
    rw [batchGo]
    split
    next hz => simp [hz]
    next hz =>
      have hrest : (popIteration l).2.length = l.length - min 100 l.length := by
        simp [popIteration]
      have hfirst : (popIteration l).1.length = min 100 l.length := by
        simp [popIteration]
        omega
      rw [List.map_cons, List.sum_cons, ih _ (by omega), hrest, hfirst]
      omega

/-- Full characterisation of delete-call execution: the calls issued are
exactly the successful prefix plus the first failing call, and the
propagated error is exactly that first failing call, if any. -/
theorem execPurge_eq (fails : DeleteCall → Bool) (calls : List DeleteCall) :
    execPurge fails calls =
      (calls.takeWhile (fun c => !fails c) ++
        (calls.dropWhile (fun c => !fails c)).take 1,
       (calls.dropWhile (fun c => !fails c)).head?) := by
  induction calls with
  | nil => simp [execPurge]
  | cons c rest ih =>
    by_cases hc : fails c
    · simp [execPurge, hc, List.takeWhile_cons, List.dropWhile_cons]
    · simp [execPurge, hc, List.takeWhile_cons, List.dropWhile_cons, ih]

/-- A driver whose configured limit is already reached performs no
further work: no page is fetched and nothing more is yielded. -/
theorem run_stuck (server : Nat → Nat → Nat → Nat → List Message)
    (fuel : Nat) (st : HistState) (h : getLimit st = 0) :
    run server fuel st = ([], st) := by
  cases fuel with
  | zero => rfl
  | succ fuel => simp [run, step, h]

/-- scrub does not change the limit field. -/
theorem scrub_limit (st : HistState) : (scrub st).limit = st.limit := by
  unfold scrub; split_ifs <;> rfl

/-- scrub does not change the last anchor. -/
theorem scrub_last (st : HistState) : (scrub st).last = st.last := by
  unfold scrub; split_ifs <;> rfl

/-- scrub does not change the retrieved count. -/
theorem scrub_retrieved (st : HistState) : (scrub st).retrieved = st.retrieved := by
  unfold scrub; split_ifs <;> rfl

/-- scrub does not change the fetch count. -/
theorem scrub_fetches (st : HistState) : (scrub st).fetches = st.fetches := by
  unfold scrub; split_ifs <;> rfl

/-- scrub does not change the after cursor. -/
theorem scrub_after (st : HistState) : (scrub st).after = st.after := by
  unfold scrub; split_ifs <;> rfl

/-- scrub leaves a state without after and around cursors unchanged. -/
theorem scrub_eq_self (st : HistState) (h1 : st.after = 0) (h2 : st.around = 0) :
    scrub st = st := by
  simp [scrub, h1, h2]

/-- The page size is insensitive to scrubbing shadowed cursors. -/
theorem getLimit_scrub (st : HistState) : getLimit (scrub st) = getLimit st := by
  simp [getLimit, scrub_limit, scrub_retrieved]

/-- scrub commutes with updating the driver bookkeeping fields. -/
theorem scrub_update (st : HistState) (la : Option Nat) (r f : Nat) :
    scrub { st with last := la, retrieved := r, fetches := f } =
      { scrub st with last := la, retrieved := r, fetches := f } := by
  simp only [scrub]
  split_ifs <;> rfl

/-- scrub commutes with bumping the fetch counter. -/
theorem scrub_fe (st : HistState) (f : Nat) :
    scrub { st with fetches := f } = { scrub st with fetches := f } := by
  simp only [scrub]
  split_ifs <;> rfl

/-- The fetch body does not change the after cursor. -/
theorem fetch_after (server : Nat → Nat → Nat → Nat → List Message)
    (st : HistState) : (fetch server st).2.after = st.after := by
  unfold fetch; split_ifs <;> rfl

/-- The fetch body does not change the around cursor. -/
theorem fetch_around (server : Nat → Nat → Nat → Nat → List Message)
    (st : HistState) : (fetch server st).2.around = st.around := by
  unfold fetch; split_ifs <;> rfl

/-- The fetch body ignores shadowed cursors: scrubbing them changes
neither the page returned nor (up to scrubbing) the resulting state. -/
theorem fetch_scrub (server : Nat → Nat → Nat → Nat → List Message)
    (st : HistState) :
    fetch server (scrub st) = ((fetch server st).1, scrub (fetch server st).2) := by
  by_cases hA : st.after = 0
  · by_cases hAR : st.around = 0
    · rw [scrub_eq_self st hA hAR, scrub_eq_self (fetch server st).2
        (by rw [fetch_after]; exact hA) (by rw [fetch_around]; exact hAR)]
    · rcases st with ⟨L, B, A, AR, la, r, f⟩
      simp only at hA hAR
      subst hA
      simp [scrub, fetch, getLimit, hAR]
  · rcases st with ⟨L, B, A, AR, la, r, f⟩
    simp only at hA
    simp [scrub, fetch, getLimit, hA]

/-- One driver step ignores shadowed cursors. -/
theorem step_scrub (server : Nat → Nat → Nat → Nat → List Message)
    (st : HistState) :
    step server (scrub st) = ((step server st).1, scrub (step server st).2) := by
  by_cases hL : getLimit st = 0
  · simp [step, getLimit_scrub, hL]
  · simp only [step, getLimit_scrub, if_neg hL, fetch_scrub]
    cases hp : (fetch server st).1.getLast? with
    | none =>
      simp only [hp, scrub_fe, scrub_fetches]
    | some m =>
      simp only [hp]
      rw [scrub_update]
      simp only [scrub_retrieved, scrub_fetches]
      conv_rhs => rw [scrub_update]

/-- The whole iteration ignores shadowed cursors: it yields the same
messages and performs the same work. -/
theorem run_scrub (server : Nat → Nat → Nat → Nat → List Message)
    (fuel : Nat) (st : HistState) :
    run server fuel (scrub st) = ((run server fuel st).1, scrub (run server fuel st).2) := by
  induction fuel generalizing st with
  | zero => simp [run]
  | succ fuel ih =>
    rw [run, run, step_scrub]
    rcases hs : step server st with ⟨o, st1⟩
    cases o with
    | none => simp
    | some page => simp [ih st1]

/-- Unfolding lemma: a demand step that ends the sequence. -/
theorem run_succ_none (server : Nat → Nat → Nat → Nat → List Message)
    (fuel : Nat) (st st1 : HistState) (h : step server st = (none, st1)) :
    run server (Nat.succ fuel) st = ([], st1) := by
  rw [run, h]

/-- Unfolding lemma: a demand step that yields a page. -/
theorem run_succ_some (server : Nat → Nat → Nat → Nat → List Message)
    (fuel : Nat) (st st1 : HistState) (page : List Message)
    (h : step server st = (some page, st1)) :
    run server (Nat.succ fuel) st =
      (page ++ (run server fuel st1).1, (run server fuel st1).2) := by
  rw [run, h]

/-- C6: for every ChannelHistory iterator in around mode (around set,
after absent), at most one page fetch is performed against the HTTP
client, regardless of the requested overall limit (including limit 0):
fetch forces the overall limit to 1 after the single around page, so no
further page is ever requested. -/
theorem around_single_fetch (server : Nat → Nat → Nat → Nat → List Message)
    (fuel limit b a : Nat) (ha : a ≠ 0) :
    (run server fuel (mkHistory limit b 0 a)).2.fetches ≤ 1 := by
  cases fuel with
  | zero => simp [run, mkHistory]
  | succ fuel =>
    by_cases hL : getLimit (mkHistory limit b 0 a) = 0
    · rw [run]
      simp only [step, if_pos hL]
      simp [mkHistory]
    · have hf : fetch server (mkHistory limit b 0 a) =
          (server (getLimit (mkHistory limit b 0 a)) a 0 0,
           { mkHistory limit b 0 a with limit := 1 }) := by
        simp [fetch, mkHistory, ha]
      cases hp : (server (getLimit (mkHistory limit b 0 a)) a 0 0).getLast? with
      | none =>
        have hstep : step server (mkHistory limit b 0 a) =
            (none, { limit := 1, before := b, after := 0, around := a,
                     last := none, retrieved := 0, fetches := 1 }) := by
          simp only [step, if_neg hL, hf]
          rw [hp]
          simp [mkHistory]
        rw [run_succ_none server fuel _ _ hstep]
      | some m =>
        have hlen : 1 ≤ (server (getLimit (mkHistory limit b 0 a)) a 0 0).length := by
          rcases hs : server (getLimit (mkHistory limit b 0 a)) a 0 0 with _ | ⟨x, xs⟩
          · rw [hs] at hp; simp at hp
          · simp
        have hstep : step server (mkHistory limit b 0 a) =
            (some (server (getLimit (mkHistory limit b 0 a)) a 0 0),
             { limit := 1, before := b, after := 0, around := a,
               last := some m.id,
               retrieved := (server (getLimit (mkHistory limit b 0 a)) a 0 0).length,
               fetches := 1 }) := by
          simp only [step, if_neg hL, hf]
          rw [hp]
          simp [mkHistory]
        rw [run_succ_some server fuel _ _ _ hstep]
        rw [run_stuck server fuel
          { limit := 1, before := b, after := 0, around := a,
            last := some m.id,
            retrieved := (server (getLimit (mkHistory limit b 0 a)) a 0 0).length,
            fetches := 1 }
          (by
            show (if (1 : Nat) = 0 then 100
              else min (1 - (server (getLimit (mkHistory limit b 0 a)) a 0 0).length) 100) = 0
            rw [if_neg (by omega), Nat.sub_eq_zero_of_le hlen]
            simp)]

/-- The ids named by a dispatched delete call all come from the batch it
was built from. -/
theorem delete_messages_ids (bb : List Nat) (x : Nat)
    (hx : x ∈ callIds (delete_messages bb)) : x ∈ bb := by
  unfold delete_messages at hx
  split at hx
  next h =>
    rcases bb with _ | ⟨y, ys⟩
    · simp at h
    · rcases ys with _ | ⟨z, zs⟩
      · simpa [callIds] using hx
      · simp at h
  next h => simpa [callIds] using hx

/-- A dispatched delete call names exactly as many ids as its batch. -/
theorem delete_messages_size (bb : List Nat) :
    callSize (delete_messages bb) = bb.length := by
  unfold delete_messages
  split
  next h => simp [callSize, callIds, h]
  next h => rfl

/-- C1: during a purge invocation, no id below the 14-day cutoff
((now_seconds - 1209600) * 1000 - DISCORD_EPOCH) << 22 is ever placed in
the accumulator, and hence none is ever named by any delete batch,
regardless of predicate, deletion_limit, or search_limit. -/
theorem purge_never_deletes_old_ids
    (server : Nat → Nat → Nat → Nat → List Message) (fuel : Nat)
    (deletionLimit searchLimit : Nat) (pred : Message → Bool)
    (avoidLoading : Bool) (b a ar now botId x : Nat)
    (hx : x < fourteenDaysAgo now) :
    x ∉ purgeAccum server fuel deletionLimit searchLimit pred avoidLoading
        b a ar now botId ∧
    ∀ c ∈ (purge server fuel deletionLimit searchLimit pred avoidLoading
        b a ar now botId).2, x ∉ callIds c := by
  have hacc : x ∉ purgeAccum server fuel deletionLimit searchLimit pred
      avoidLoading b a ar now botId := by
    intro hmem
    rcases selectLoop_mem _ _ _ _ _ _ _ _ hmem with h | ⟨m, _, hid, _, _, hage⟩
    · simp at h
    · exact hage (hid ▸ hx)
  refine ⟨hacc, ?_⟩
  intro c hc hxc
  rcases List.mem_map.mp hc with ⟨bb, hbb, rfl⟩
  exact hacc (batchGo_mem _ _ _ hbb x (delete_messages_ids bb x hxc))

/-- Witness for C1 at a concrete input. -/
theorem purge_never_deletes_old_ids_witness :
    5 < fourteenDaysAgo 1700000000 ∧
    5 ∉ purgeAccum srvEmpty 3 50 100 (fun _ => true) true 0 0 0 1700000000 7 :=
  ⟨by decide,
   (purge_never_deletes_old_ids srvEmpty 3 50 100 (fun _ => true) true
     0 0 0 1700000000 7 5 (by decide)).1⟩

/-- Counterexample for C2: in around mode the fetched page is handed to
the consumer exactly as the HTTP client returned it, with no sort, so an
ascending server page is not descending by id. -/
theorem fetch_around_unsorted_counterexample :
    (fetch srvAsc (mkHistory 50 0 0 5)).1 =
      [{ id := 1, authorId := 0, loading := false },
       { id := 2, authorId := 0, loading := false }] ∧
    ¬ List.Pairwise (fun x y : Message => y.id ≤ x.id)
        (fetch srvAsc (mkHistory 50 0 0 5)).1 := by
  constructor
  · rfl
  · decide

/-- C2 (amended): a page fetched in after mode is sorted ascending by
id and a page fetched in before (or default) mode is sorted descending
by id; a page fetched in around mode is returned in exactly the order
the HTTP client supplied, with no sort applied. -/
theorem fetch_page_ordering (server : Nat → Nat → Nat → Nat → List Message) :
    (∀ st : HistState, st.after ≠ 0 →
      List.Pairwise (fun x y : Message => x.id ≤ y.id) (fetch server st).1) ∧
    (∀ st : HistState, st.after = 0 → st.around = 0 →
      List.Pairwise (fun x y : Message => y.id ≤ x.id) (fetch server st).1) ∧
    (∀ st : HistState, st.after = 0 → st.around ≠ 0 →
      (fetch server st).1 = server (getLimit st) st.around 0 0) := by
  refine ⟨?_, ?_, ?_⟩
  · intro st h
    rw [fetch, if_pos h]
    exact sortAsc_sorted _
  · intro st h1 h2
    rw [fetch, if_neg (by simpa using h1), if_neg (by simpa using h2)]
    exact sortDesc_sorted _
  · intro st h1 h2
    rw [fetch, if_neg (by simpa using h1), if_pos h2]

/-- Witness for the amended C2 at concrete inputs. -/
theorem fetch_page_ordering_witness :
    ((mkHistory 50 0 9 0).after ≠ 0 ∧
      List.Pairwise (fun x y : Message => x.id ≤ y.id)
        (fetch srvAsc (mkHistory 50 0 9 0)).1) ∧
    ((mkHistory 50 9 0 0).after = 0 ∧ (mkHistory 50 9 0 0).around = 0 ∧
      List.Pairwise (fun x y : Message => y.id ≤ x.id)
        (fetch srvAsc (mkHistory 50 9 0 0)).1) ∧
    ((mkHistory 50 0 0 5).after = 0 ∧ (mkHistory 50 0 0 5).around ≠ 0 ∧
      (fetch srvAsc (mkHistory 50 0 0 5)).1 =
        srvAsc (getLimit (mkHistory 50 0 0 5)) (mkHistory 50 0 0 5).around 0 0) :=
  ⟨⟨by decide, (fetch_page_ordering srvAsc).1 (mkHistory 50 0 9 0) (by decide)⟩,
   ⟨by decide, by decide,
    (fetch_page_ordering srvAsc).2.1 (mkHistory 50 9 0 0) (by decide) (by decide)⟩,
   ⟨by decide, by decide,
    (fetch_page_ordering srvAsc).2.2 (mkHistory 50 0 0 5) (by decide) (by decide)⟩⟩

/-- C3: a one-element id list dispatches to the single-message delete
endpoint, and a purge invocation that accumulates exactly one id issues
exactly that one single delete and no bulk call. -/
theorem purge_single_accum_single_delete
    (server : Nat → Nat → Nat → Nat → List Message) (fuel : Nat)
    (deletionLimit searchLimit : Nat) (pred : Message → Bool)
    (avoidLoading : Bool) (b a ar now botId : Nat) :
    (∀ x : Nat, delete_messages [x] = DeleteCall.single x) ∧
    (∀ x : Nat,
      purgeAccum server fuel deletionLimit searchLimit pred avoidLoading
        b a ar now botId = [x] →
      (purge server fuel deletionLimit searchLimit pred avoidLoading
        b a ar now botId).2 = [DeleteCall.single x] ∧
      ((purge server fuel deletionLimit searchLimit pred avoidLoading
        b a ar now botId).2.filter (fun c => isBulk c)).length = 0) := by
  constructor
  · intro x; rfl
  · intro x h
    have hcalls : (purge server fuel deletionLimit searchLimit pred avoidLoading
        b a ar now botId).2 = [DeleteCall.single x] := by
      simp only [purge, h]
      rfl
    exact ⟨hcalls, by rw [hcalls]; rfl⟩

/-- Witness for C3 at a concrete input. -/
theorem purge_single_accum_single_delete_witness :
    purgeAccum srvOne 2 0 1 (fun _ => true) true 0 0 0 nowW 7 = [bigId + 1] ∧
    (purge srvOne 2 0 1 (fun _ => true) true 0 0 0 nowW 7).2 =
      [DeleteCall.single (bigId + 1)] :=
  ⟨by decide,
   ((purge_single_accum_single_delete srvOne 2 0 1 (fun _ => true) true
     0 0 0 nowW 7).2 (bigId + 1) (by decide)).1⟩

set_option maxRecDepth 40000 in
/-- Counterexample for C4: a purge invocation that accumulates 101
qualifying ids issues only 1 bulk-delete call, not ceil(101/100) = 2,
because the final batch holds a single id and is dispatched as a
single-message delete. -/
theorem purge_bulk_count_counterexample :
    (purgeAccum srv101 3 0 101 (fun _ => true) true 0 0 0 nowW 7).length = 101 ∧
    1 < (purgeAccum srv101 3 0 101 (fun _ => true) true 0 0 0 nowW 7).length ∧
    ((purge srv101 3 0 101 (fun _ => true) true 0 0 0 nowW 7).2.filter
        (fun c => isBulk c)).length = 1 ∧
    (101 + 99) / 100 = 2 := by
  refine ⟨by decide, by decide, by decide, by decide⟩

set_option maxRecDepth 40000 in
/-- C4 (amended): for N > 1 accumulated ids the accumulator is
partitioned into ceil(N/100) batches of between 1 and 100 ids and purge
issues exactly one delete call per batch; each such call is a bulk call
when its batch holds more than one id, while a batch holding exactly one
id (which happens for the final batch when N is 1 mod 100) is dispatched
as a single-message delete; in the 150-message scenario purge returns
150 and issues exactly 2 bulk calls of sizes 100 and 50. -/
theorem purge_batching (server : Nat → Nat → Nat → Nat → List Message)
    (fuel : Nat) (deletionLimit searchLimit : Nat) (pred : Message → Bool)
    (avoidLoading : Bool) (b a ar now botId : Nat) :
    (1 < (purgeAccum server fuel deletionLimit searchLimit pred avoidLoading
        b a ar now botId).length →
      ((batchLoop (purgeAccum server fuel deletionLimit searchLimit pred
          avoidLoading b a ar now botId)).length =
        ((purgeAccum server fuel deletionLimit searchLimit pred avoidLoading
          b a ar now botId).length + 99) / 100 ∧
       (∀ bb ∈ batchLoop (purgeAccum server fuel deletionLimit searchLimit pred
          avoidLoading b a ar now botId), 1 ≤ bb.length ∧ bb.length ≤ 100) ∧
       (purge server fuel deletionLimit searchLimit pred avoidLoading
          b a ar now botId).2 =
         (batchLoop (purgeAccum server fuel deletionLimit searchLimit pred
           avoidLoading b a ar now botId)).map delete_messages ∧
       ∀ bb ∈ batchLoop (purgeAccum server fuel deletionLimit searchLimit pred
          avoidLoading b a ar now botId),
         (bb.length = 1 → delete_messages bb = DeleteCall.single (bb.headD 0)) ∧
         (1 < bb.length → delete_messages bb = DeleteCall.bulk bb))) ∧
    ((purge srv150 3 0 150 (fun _ => true) true 0 0 0 nowW 7).1 = 150 ∧
     ((purge srv150 3 0 150 (fun _ => true) true 0 0 0 nowW 7).2).map callSize =
       [100, 50] ∧
     ((purge srv150 3 0 150 (fun _ => true) true 0 0 0 nowW 7).2).map
       (fun c => isBulk c) = [true, true]) := by
  constructor
  · intro _
    refine ⟨batchGo_count _ _ (Nat.le_refl _), ?_, rfl, ?_⟩
    · intro bb hbb
      exact batchGo_bounds _ _ _ hbb
    · intro bb _
      constructor
      · intro h1
        rw [delete_messages, if_pos h1]
      · intro h1
        rw [delete_messages, if_neg (by omega)]
  · refine ⟨by decide, by decide, by decide⟩

set_option maxRecDepth 40000 in
/-- Witness for the amended C4 at a concrete input. -/
theorem purge_batching_witness :
    1 < (purgeAccum srv150 3 0 150 (fun _ => true) true 0 0 0 nowW 7).length ∧
    (batchLoop (purgeAccum srv150 3 0 150 (fun _ => true) true 0 0 0 nowW 7)).length =
      ((purgeAccum srv150 3 0 150 (fun _ => true) true 0 0 0 nowW 7).length + 99) /
        100 :=
  ⟨by decide,
   ((purge_batching srv150 3 0 150 (fun _ => true) true 0 0 0 nowW 7).1
     (by decide)).1⟩

/-- C5: with a nonzero deletion_limit the purge accumulator never holds
more than deletion_limit ids (at the end and throughout the scan, since
every intermediate accumulator is the loop result on a prefix of the
yielded messages) and scanning stops as soon as the accumulator reaches
deletion_limit; with deletion_limit 0 the accumulator is uncapped by any
count and the loop scans every message the history iterator yields,
accumulating exactly the eligible ids. -/
theorem purge_deletion_limit_cap :
    (∀ (server : Nat → Nat → Nat → Nat → List Message) (fuel : Nat)
        (deletionLimit searchLimit : Nat) (pred : Message → Bool)
        (avoidLoading : Bool) (b a ar now botId : Nat),
      deletionLimit ≠ 0 →
      (purgeAccum server fuel deletionLimit searchLimit pred avoidLoading
        b a ar now botId).length ≤ deletionLimit) ∧
    (∀ (botId deletionLimit : Nat) (pred : Message → Bool)
        (avoidLoading : Bool) (cutoff n : Nat) (msgs : List Message),
      deletionLimit ≠ 0 →
      (selectLoop botId deletionLimit pred avoidLoading cutoff
        (msgs.take n) []).length ≤ deletionLimit) ∧
    (∀ (botId deletionLimit : Nat) (pred : Message → Bool)
        (avoidLoading : Bool) (cutoff : Nat) (msgs : List Message)
        (acc : List Nat),
      deletionLimit ≠ 0 → acc.length = deletionLimit →
      selectLoop botId deletionLimit pred avoidLoading cutoff msgs acc = acc) ∧
    (∀ (server : Nat → Nat → Nat → Nat → List Message) (fuel : Nat)
        (searchLimit : Nat) (pred : Message → Bool) (avoidLoading : Bool)
        (b a ar now botId : Nat),
      purgeAccum server fuel 0 searchLimit pred avoidLoading b a ar now botId =
        ((run server fuel (mkHistory searchLimit b a ar)).1.filter
          (eligibleB botId pred avoidLoading (fourteenDaysAgo now))).map
          Message.id) := by
  refine ⟨?_, ?_, ?_, ?_⟩
  · intro server fuel dl sl pred avoid b a ar now bot h
    exact selectLoop_length_le _ _ _ _ _ _ _ h (by simp)
  · intro bot dl pred avoid cutoff n msgs h
    exact selectLoop_length_le _ _ _ _ _ _ _ h (by simp)
  · intro bot dl pred avoid cutoff msgs acc h h2
    exact selectLoop_break _ _ _ _ _ _ _ h h2
  · intro server fuel sl pred avoid b a ar now bot
    simpa using selectLoop_zero bot pred avoid (fourteenDaysAgo now)
      (run server fuel (mkHistory sl b a ar)).1 []

/-- Witness for C5 at concrete inputs. -/
theorem purge_deletion_limit_cap_witness :
    ((2 : Nat) ≠ 0 ∧
      (purgeAccum srvTwo 2 2 2 (fun _ => true) true 0 0 0 nowW 7).length ≤ 2) ∧
    ((1 : Nat) ≠ 0 ∧
      (selectLoop 7 1 (fun _ => true) true 0 ([mkMsg 1].take 1) []).length ≤ 1) ∧
    ((2 : Nat) ≠ 0 ∧
      selectLoop 7 2 (fun _ => true) true 0 [mkMsg 1] [5, 6] = [5, 6]) :=
  ⟨⟨by decide,
    (purge_deletion_limit_cap.1 srvTwo 2 2 2 (fun _ => true) true
      0 0 0 nowW 7 (by decide))⟩,
   ⟨by decide,
    purge_deletion_limit_cap.2.1 7 1 (fun _ => true) true 0 1 [mkMsg 1]
      (by decide)⟩,
   ⟨by decide,
    purge_deletion_limit_cap.2.2.1 7 2 (fun _ => true) true 0 [mkMsg 1] [5, 6]
      (by decide) (by decide)⟩⟩

/-- The first element surviving a dropWhile falsifies the predicate. -/
theorem dropWhile_head_false (p : DeleteCall → Bool) (l : List DeleteCall)
    (x : DeleteCall) (xs : List DeleteCall) (h : l.dropWhile p = x :: xs) :
    p x = false := by
  induction l with
  | nil => simp at h
  | cons a as ih =>
    rw [List.dropWhile_cons] at h
    split at h
    · exact ih h
    next hpa =>
      injection h with h1 h2
      subst h1
      simpa using hpa

/-- C7: purge returns the accumulator length, computed before any
delete call is issued and independent of whether deletions fail; the
delete calls are issued strictly in order until the first failure,
whose error is propagated as is with no retry and no later call; and
when a failure occurs the returned count strictly over-reports the
number of ids actually deleted. -/
theorem purge_count_and_error (fails fails2 : DeleteCall → Bool)
    (server : Nat → Nat → Nat → Nat → List Message) (fuel : Nat)
    (deletionLimit searchLimit : Nat) (pred : Message → Bool)
    (avoidLoading : Bool) (b a ar now botId : Nat) :
    (purge server fuel deletionLimit searchLimit pred avoidLoading
        b a ar now botId).1 =
      (purgeAccum server fuel deletionLimit searchLimit pred avoidLoading
        b a ar now botId).length ∧
    (purgeRun fails server fuel deletionLimit searchLimit pred avoidLoading
        b a ar now botId).1 =
      (purgeRun fails2 server fuel deletionLimit searchLimit pred avoidLoading
        b a ar now botId).1 ∧
    execPurge fails (purge server fuel deletionLimit searchLimit pred
        avoidLoading b a ar now botId).2 =
      ((purge server fuel deletionLimit searchLimit pred avoidLoading
          b a ar now botId).2.takeWhile (fun c => !fails c) ++
        ((purge server fuel deletionLimit searchLimit pred avoidLoading
          b a ar now botId).2.dropWhile (fun c => !fails c)).take 1,
       ((purge server fuel deletionLimit searchLimit pred avoidLoading
          b a ar now botId).2.dropWhile (fun c => !fails c)).head?) ∧
    (∀ e, (execPurge fails (purge server fuel deletionLimit searchLimit pred
        avoidLoading b a ar now botId).2).2 = some e →
      fails e = true ∧
      e ∈ (purge server fuel deletionLimit searchLimit pred avoidLoading
        b a ar now botId).2 ∧
      (((execPurge fails (purge server fuel deletionLimit searchLimit pred
          avoidLoading b a ar now botId).2).1.filter
          (fun c => !fails c)).map callSize).sum <
        (purge server fuel deletionLimit searchLimit pred avoidLoading
          b a ar now botId).1) := by
  refine ⟨rfl, rfl, execPurge_eq _ _, ?_⟩
  intro e he
  have hc : (purge server fuel deletionLimit searchLimit pred avoidLoading
      b a ar now botId).2 =
      (batchLoop (purgeAccum server fuel deletionLimit searchLimit pred
        avoidLoading b a ar now botId)).map delete_messages := rfl
  have hcount : (purge server fuel deletionLimit searchLimit pred avoidLoading
      b a ar now botId).1 =
      (purgeAccum server fuel deletionLimit searchLimit pred avoidLoading
        b a ar now botId).length := rfl
  rw [execPurge_eq] at he
  simp only at he
  rcases hd : (purge server fuel deletionLimit searchLimit pred avoidLoading
      b a ar now botId).2.dropWhile (fun c => !fails c) with _ | ⟨e0, t⟩
  · rw [hd] at he; simp at he
  · rw [hd] at he
    simp only [List.head?_cons, Option.some.injEq] at he
    subst he
    have hfe : (!fails e0) = false := dropWhile_head_false _ _ _ _ hd
    have hfe2 : fails e0 = true := by simpa using hfe
    have hmem : e0 ∈ (purge server fuel deletionLimit searchLimit pred
        avoidLoading b a ar now botId).2 := by
      have h2 := List.takeWhile_append_dropWhile
        (p := fun c => !fails c)
        (l := (purge server fuel deletionLimit searchLimit pred avoidLoading
          b a ar now botId).2)
      rw [← h2]
      exact List.mem_append_right _ (hd ▸ List.mem_cons_self e0 t)
    refine ⟨hfe2, hmem, ?_⟩
    have hsize1 : 1 ≤ callSize e0 := by
      rcases List.mem_map.mp (hc ▸ hmem) with ⟨bb, hbb, rfl⟩
      rw [delete_messages_size]
      exact (batchGo_bounds _ _ _ hbb).1
    have htotal : (((purge server fuel deletionLimit searchLimit pred
        avoidLoading b a ar now botId).2.map callSize)).sum =
        (purgeAccum server fuel deletionLimit searchLimit pred avoidLoading
          b a ar now botId).length := by
      rw [hc, List.map_map]
      have hmapeq : (batchLoop (purgeAccum server fuel deletionLimit
          searchLimit pred avoidLoading b a ar now botId)).map
            (callSize ∘ delete_messages) =
          (batchLoop (purgeAccum server fuel deletionLimit searchLimit pred
            avoidLoading b a ar now botId)).map List.length := by
        refine List.map_congr_left ?_
        intro bb _
        exact delete_messages_size bb
      rw [hmapeq]
      exact batchGo_sum _ _ (Nat.le_refl _)
    have hsplit : (purge server fuel deletionLimit searchLimit pred
        avoidLoading b a ar now botId).2 =
        ((purge server fuel deletionLimit searchLimit pred avoidLoading
          b a ar now botId).2.takeWhile (fun c => !fails c)) ++ (e0 :: t) := by
      conv_lhs => rw [← List.takeWhile_append_dropWhile
        (p := fun c => !fails c)
        (l := (purge server fuel deletionLimit searchLimit pred avoidLoading
          b a ar now botId).2)]
      rw [hd]
    rw [execPurge_eq]
    simp only [hd, List.take_succ_cons, List.take_zero]
    rw [List.filter_append,
      List.filter_eq_self.mpr
        (fun c hc2 => List.mem_takeWhile_imp (p := fun c => !fails c) hc2)]
    have hsingle : [e0].filter (fun c => !fails c) = [] := by
      simp [hfe2]
    rw [hsingle, List.append_nil, hcount]
    rw [hsplit, List.map_append, List.sum_append, List.map_cons,
      List.sum_cons] at htotal
    omega

/-- Witness for C7 at a concrete input where every delete call fails. -/
theorem purge_count_and_error_witness :
    (execPurge (fun _ => true)
        (purge srvTwo 2 0 2 (fun _ => true) true 0 0 0 nowW 7).2).2 =
      some (DeleteCall.bulk [bigId + 1, bigId + 2]) ∧
    ((fun _ => true : DeleteCall → Bool)
        (DeleteCall.bulk [bigId + 1, bigId + 2]) = true ∧
     DeleteCall.bulk [bigId + 1, bigId + 2] ∈
       (purge srvTwo 2 0 2 (fun _ => true) true 0 0 0 nowW 7).2 ∧
     (((execPurge (fun _ => true)
         (purge srvTwo 2 0 2 (fun _ => true) true 0 0 0 nowW 7).2).1.filter
         (fun c => !(fun _ => true : DeleteCall → Bool) c)).map callSize).sum <
       (purge srvTwo 2 0 2 (fun _ => true) true 0 0 0 nowW 7).1) :=
  ⟨by decide,
   (purge_count_and_error (fun _ => true) (fun _ => false) srvTwo 2 0 2
     (fun _ => true) true 0 0 0 nowW 7).2.2.2
     (DeleteCall.bulk [bigId + 1, bigId + 2]) (by decide)⟩

/-- C8: get_messages rejects any limit above 100 with the invalid
argument error before any HTTP request or cache access is performed
(the result does not depend on the HTTP oracle at all), and for any
limit at most 100 no such error is raised. -/
theorem get_messages_limit_check
    (server server2 : Nat → Nat → Nat → Nat → List Message)
    (limit ar b a : Nat) :
    (100 < limit →
      get_messages server limit ar b a =
        Except.error "You cannot fetch more than 100 messages at once." ∧
      get_messages server limit ar b a = get_messages server2 limit ar b a) ∧
    (limit ≤ 100 →
      get_messages server limit ar b a = Except.ok (server limit ar b a)) := by
  constructor
  · intro h
    constructor
    · rw [get_messages, if_pos h]
    · rw [get_messages, get_messages, if_pos h, if_pos h]
  · intro h
    rw [get_messages, if_neg (by omega)]

/-- Witness for C8 at concrete inputs. -/
theorem get_messages_limit_check_witness :
    (100 < 101 ∧
      get_messages srvEmpty 101 0 0 0 =
        Except.error "You cannot fetch more than 100 messages at once." ∧
      get_messages srvEmpty 101 0 0 0 = get_messages srvAsc 101 0 0 0) ∧
    (50 ≤ 100 ∧ get_messages srvEmpty 50 0 0 0 = Except.ok (srvEmpty 50 0 0 0)) :=
  ⟨⟨by decide, (get_messages_limit_check srvEmpty srvAsc 101 0 0 0).1 (by decide)⟩,
   ⟨by decide, (get_messages_limit_check srvEmpty srvAsc 50 0 0 0).2 (by decide)⟩⟩

/-- C9: with avoid_loading_msg set, the purge selection behaves exactly
as if the bot's own loading messages were absent from the scanned
history (they are never accumulated and do not count against the
deletion limit), every accumulated id comes from a scanned message that
is not a bot-authored loading message, and every id named by a delete
call comes from the accumulator. -/
theorem purge_avoid_loading_skip
    (server : Nat → Nat → Nat → Nat → List Message) (fuel : Nat)
    (deletionLimit searchLimit : Nat) (pred : Message → Bool)
    (b a ar now botId : Nat) :
    purgeAccum server fuel deletionLimit searchLimit pred true
        b a ar now botId =
      selectLoop botId deletionLimit pred true (fourteenDaysAgo now)
        ((run server fuel (mkHistory searchLimit b a ar)).1.filter
          (fun m => decide ¬(m.authorId = botId ∧ m.loading = true))) [] ∧
    (∀ x ∈ purgeAccum server fuel deletionLimit searchLimit pred true
        b a ar now botId,
      ∃ m, m ∈ (run server fuel (mkHistory searchLimit b a ar)).1 ∧
        m.id = x ∧ pred m = true ∧
        ¬(m.authorId = botId ∧ m.loading = true)) ∧
    (∀ c ∈ (purge server fuel deletionLimit searchLimit pred true
        b a ar now botId).2,
      ∀ x ∈ callIds c,
        x ∈ purgeAccum server fuel deletionLimit searchLimit pred true
          b a ar now botId) := by
  refine ⟨?_, ?_, ?_⟩
  · exact selectLoop_skips_loading botId deletionLimit pred
      (fourteenDaysAgo now) (run server fuel (mkHistory searchLimit b a ar)).1 []
  · intro x hx
    rcases selectLoop_mem _ _ _ _ _ _ _ _ hx with h | ⟨m, hm, hid, hpred, hskip, _⟩
    · simp at h
    · have hnl : ¬(m.authorId = botId ∧ m.loading = true) := by
        intro hcontra
        exact hskip ⟨rfl, hcontra⟩
      exact ⟨m, hm, hid, hpred, hnl⟩
  · intro c hcall x hx
    rcases List.mem_map.mp hcall with ⟨bb, hbb, rfl⟩
    exact batchGo_mem _ _ _ hbb x (delete_messages_ids bb x hx)

/-- Witness for C9 at a concrete input containing a bot loading message. -/
theorem purge_avoid_loading_skip_witness :
    DeleteCall.single (bigId + 1) ∈
      (purge srvMix 2 0 2 (fun _ => true) true 0 0 0 nowW 999).2 ∧
    bigId + 1 ∈ callIds (DeleteCall.single (bigId + 1)) ∧
    bigId + 1 ∈ purgeAccum srvMix 2 0 2 (fun _ => true) true 0 0 0 nowW 999 :=
  ⟨by decide, by decide,
   (purge_avoid_loading_skip srvMix 2 0 2 (fun _ => true) 0 0 0 nowW 999).2.2
     (DeleteCall.single (bigId + 1)) (by decide) (bigId + 1) (by decide)⟩

/-- Witness for C6 at a concrete input with unlimited overall limit. -/
theorem around_single_fetch_witness :
    (7 : Nat) ≠ 0 ∧
    (run srvAsc 5 (mkHistory 0 0 0 7)).2.fetches ≤ 1 :=
  ⟨by decide, around_single_fetch srvAsc 5 0 0 7 (by decide)⟩

/-- C10: no error is raised when several of before, after, around are
supplied; a truthy after takes precedence over around, which takes
precedence over before, and the iterator yields the same messages and
performs the same number of page fetches as when only the highest
precedence cursor is supplied; a cursor value 0 is treated as absent. -/
theorem history_mode_precedence
    (server : Nat → Nat → Nat → Nat → List Message)
    (fuel limit b a ar : Nat) :
    (a ≠ 0 →
      (run server fuel (mkHistory limit b a ar)).1 =
        (run server fuel (mkHistory limit 0 a 0)).1 ∧
      (run server fuel (mkHistory limit b a ar)).2.fetches =
        (run server fuel (mkHistory limit 0 a 0)).2.fetches) ∧
    (a = 0 → ar ≠ 0 →
      (run server fuel (mkHistory limit b a ar)).1 =
        (run server fuel (mkHistory limit 0 0 ar)).1 ∧
      (run server fuel (mkHistory limit b a ar)).2.fetches =
        (run server fuel (mkHistory limit 0 0 ar)).2.fetches) ∧
    (a = 0 → ar = 0 →
      run server fuel (mkHistory limit b a ar) =
        run server fuel (mkHistory limit b 0 0)) := by
  refine ⟨?_, ?_, ?_⟩
  · intro h
    have hs : mkHistory limit 0 a 0 = scrub (mkHistory limit b a ar) := by
      simp [scrub, mkHistory, h]
    rw [hs, run_scrub]
    exact ⟨rfl, (scrub_fetches _).symm⟩
  · intro h1 h2
    subst h1
    have hs : mkHistory limit 0 0 ar = scrub (mkHistory limit b 0 ar) := by
      simp [scrub, mkHistory, h2]
    rw [hs, run_scrub]
    exact ⟨rfl, (scrub_fetches _).symm⟩
  · intro h1 h2
    subst h1
    subst h2
    rfl

/-- Witness for C10 at concrete inputs with several cursors supplied. -/
theorem history_mode_precedence_witness :
    ((9 : Nat) ≠ 0 ∧
      (run srvAsc 2 (mkHistory 50 3 9 4)).1 =
        (run srvAsc 2 (mkHistory 50 0 9 0)).1) ∧
    ((0 : Nat) = 0 ∧ (4 : Nat) ≠ 0 ∧
      (run srvAsc 2 (mkHistory 50 3 0 4)).1 =
        (run srvAsc 2 (mkHistory 50 0 0 4)).1) :=
  ⟨⟨by decide, ((history_mode_precedence srvAsc 2 50 3 9 4).1 (by decide)).1⟩,
   ⟨rfl, by decide,
    ((history_mode_precedence srvAsc 2 50 3 0 4).2.1 rfl (by decide)).1⟩⟩
